import Mathlib

/-!
Shallow embedding of `src/topology.rs` (crate `nrfs`): the `MachineTopology`
structure, its discovery routine `MachineTopology::new`, and its query methods
`cores`, `sockets` and `cpus_on_socket`.

The external hwloc topology provider is modelled by the data it supplies to the
code under verification: each processing-unit object carries its OS index and
its chain of ancestor objects (the successive values of `cpu.parent()`,
nearest parent first), and every topology object carries a classification
(`object_type()`), optional cache attributes (`cache_attributes()` returning
`Some depth` or `None`), a logical index, an OS index and a total-memory
figure. `Topology::new()` failing is modelled by passing `none` to
`MachineTopology.new`; `objects_with_type(PU)` failing is modelled by the
provider's `pus` field being `none`. Rust panics (`expect` / `unwrap`) are
modelled as `Except.error` values of the `Panic` type, one constructor per
panic site.
-/

namespace Nrfs

/-- Classification of a hwloc topology object (`hwloc2::ObjectType`). Only the
variants inspected by `topology.rs` are distinguished; `Machine`, `Package` and
`Group` stand for the remaining kinds an ancestor chain may contain. -/
inductive ObjectType where
  | Machine
  | Package
  | Group
  | NUMANode
  | Core
  | PU
  | L1Cache
  | L2Cache
  | L3Cache
deriving DecidableEq, Repr

/-- One hwloc topology object as consumed by `topology.rs`:
`object_type()`, `cache_attributes()` (`some depth` when the object carries
cache attributes, `none` when `cache_attributes()` returns `None`),
`logical_index()`, `os_index()` and `total_memory()`. -/
structure TopoObject where
  objectType : ObjectType
  cacheAttributes : Option Nat
  logicalIndex : Nat
  osIndex : Nat
  totalMemory : Nat
deriving DecidableEq, Repr

/-- One processing-unit object returned by `objects_with_type(PU)`: its
`os_index()` and its parent chain (the successive values of `cpu.parent()`,
nearest parent first; the empty list models `parent()` returning `None`
immediately). -/
structure PUObject where
  osIndex : Nat
  ancestors : List TopoObject
deriving DecidableEq, Repr

/-- The provider handle obtained from `Topology::new()`: the enumeration of
processing units, `none` when `objects_with_type(&ObjectType::PU)` fails. -/
structure Topology where
  pus : Option (List PUObject)
deriving DecidableEq, Repr

/-- The panic sites of `MachineTopology::new`, one constructor per `expect`
message plus one for `cache_attributes().unwrap()` on a `None` value. -/
inductive Panic where
  | cantRetrieveTopology
  | cantFindCPUs
  | puHasNoCore
  | coreHasNoL1
  | coreHasNoL2
  | coreHasNoL3Socket
  | unwrapNone
deriving DecidableEq, Repr

/-- NUMA Node information (`NodeInfo` in `topology.rs`). -/
structure NodeInfo where
  node : Nat
  memory : Nat
deriving DecidableEq, Repr

/-- Information about a CPU in the system (`CpuInfo` in `topology.rs`). -/
structure CpuInfo where
  node : Option NodeInfo
  socket : Nat
  core : Nat
  cpu : Nat
  l1 : Nat
  l2 : Nat
  l3 : Nat
deriving DecidableEq, Repr

/-- First ascent loop of `new`:
`while parent.is_some() && parent.unwrap().object_type() != ObjectType::Core
{ parent = parent.unwrap().parent(); }`.
The `parent` variable is represented by the remaining chain suffix; the result
is the suffix whose head is the found `Core`, or `[]` when the loop exhausts
the chain (`parent` becomes `None`). -/
def findCore : List TopoObject → List TopoObject
  | [] => []
  | o :: rest =>
    if o.objectType = ObjectType.Core then o :: rest else findCore rest

/-- Cache ascent loops of `new` (L1, L2, L3 instances):
`while parent.is_some() && (parent.unwrap().object_type() != ty
|| parent.unwrap().cache_attributes().unwrap().depth() < minDepth)
{ parent = parent.unwrap().parent(); }`.
The short-circuit `||` means `cache_attributes().unwrap()` is evaluated only
on objects whose `object_type()` equals `ty`; when such an object has no cache
attributes the `unwrap` panics (`Except.error Panic.unwrapNone`). -/
def findCache (ty : ObjectType) (minDepth : Nat) :
    List TopoObject → Except Panic (List TopoObject)
  | [] => Except.ok []
  | o :: rest =>
    if o.objectType = ty then
      match o.cacheAttributes with
      | none => Except.error Panic.unwrapNone
      | some d =>
        if d < minDepth then findCache ty minDepth rest
        else Except.ok (o :: rest)
    else findCache ty minDepth rest

/-- The stop condition of a cache ascent loop, as a predicate on one object:
the object is classified as `ty` and carries cache attributes declaring depth
at least `d`. The loop walks past exactly the objects for which this is false
(panicking instead if it must read absent attributes). -/
def qualifiesCache (o : TopoObject) (ty : ObjectType) (d : Nat) : Bool :=
  decide (o.objectType = ty) &&
    (match o.cacheAttributes with
     | some k => decide (d ≤ k)
     | none => false)

/-- Fifth ascent loop of `new`:
`while parent.is_some() && parent.unwrap().object_type() != ObjectType::NUMANode
{ parent = parent.unwrap().parent(); }`. No `expect` follows this loop. -/
def findNUMA : List TopoObject → List TopoObject
  | [] => []
  | o :: rest =>
    if o.objectType = ObjectType.NUMANode then o :: rest else findNUMA rest

/-- The body of the `for cpu in cpus` loop of `MachineTopology::new`: the four
`expect`-guarded ascents, the tolerated NUMA ascent, and the construction of
the `CpuInfo` record. -/
def processPU (cpu : PUObject) : Except Panic CpuInfo :=
  match findCore cpu.ancestors with
  | [] => Except.error Panic.puHasNoCore
  | core :: r1 =>
    match findCache ObjectType.L1Cache 1 (core :: r1) with
    | Except.error e => Except.error e
    | Except.ok p2 =>
      match p2 with
      | [] => Except.error Panic.coreHasNoL1
      | l1 :: r2 =>
        match findCache ObjectType.L2Cache 2 (l1 :: r2) with
        | Except.error e => Except.error e
        | Except.ok p3 =>
          match p3 with
          | [] => Except.error Panic.coreHasNoL2
          | l2 :: r3 =>
            match findCache ObjectType.L3Cache 3 (l2 :: r3) with
            | Except.error e => Except.error e
            | Except.ok p4 =>
              match p4 with
              | [] => Except.error Panic.coreHasNoL3Socket
              | socket :: r4 =>
                let numaNode :=
                  (findNUMA (socket :: r4)).head?.map fun n =>
                    ({ node := n.osIndex, memory := n.totalMemory } : NodeInfo)
                Except.ok
                  { node := numaNode
                    socket := socket.logicalIndex
                    core := core.logicalIndex
                    cpu := cpu.osIndex
                    l1 := l1.logicalIndex
                    l2 := l2.logicalIndex
                    l3 := socket.logicalIndex }

/-- The `for cpu in cpus` loop of `MachineTopology::new`: processes the
enumerated processing units in order, pushing each record; a panic in any
iteration aborts the whole construction. -/
def processAll : List PUObject → Except Panic (List CpuInfo)
  | [] => Except.ok []
  | cpu :: rest =>
    match processPU cpu with
    | Except.error e => Except.error e
    | Except.ok info =>
      match processAll rest with
      | Except.error e => Except.error e
      | Except.ok infos => Except.ok (info :: infos)

/-- `MachineTopology` from `topology.rs`: the flat table of per-processing-unit
records, in provider-reported order. -/
structure MachineTopology where
  data : List CpuInfo
deriving DecidableEq, Repr

/-- `MachineTopology::new()`. The argument models the outcome of
`Topology::new()` (`none`: the provider cannot initialize). -/
def MachineTopology.new (init : Option Topology) : Except Panic MachineTopology :=
  match init with
  | none => Except.error Panic.cantRetrieveTopology
  | some topo =>
    match topo.pus with
    | none => Except.error Panic.cantFindCPUs
    | some cpus =>
      match processAll cpus with
      | Except.error e => Except.error e
      | Except.ok data => Except.ok { data := data }

/-- `MachineTopology::cores`: `self.data.len()`. -/
def MachineTopology.cores (t : MachineTopology) : Nat :=
  t.data.length

/-- Helper for `Vec::dedup`: `a` is the last element kept; every following
element equal to it is dropped, and a differing element is kept and becomes
the new comparison point. -/
def dedupFrom (a : Nat) : List Nat → List Nat
  | [] => []
  | b :: rest => if a = b then dedupFrom a rest else b :: dedupFrom b rest

/-- `Vec::dedup` on a vector of socket identifiers: removes consecutive
repeated elements, keeping the first of each run. -/
def dedupConsec : List Nat → List Nat
  | [] => []
  | a :: rest => a :: dedupFrom a rest

/-- `MachineTopology::sockets`: collect the `socket` field of every record,
`sort()`, `dedup()`. -/
def MachineTopology.sockets (t : MachineTopology) : List Nat :=
  dedupConsec (List.insertionSort (fun a b => a ≤ b) (t.data.map fun c => c.socket))

/-- `MachineTopology::cpus_on_socket`:
`self.data.iter().filter(|t| t.socket == socket).collect()`. -/
def MachineTopology.cpus_on_socket (t : MachineTopology) (socket : Nat) : List CpuInfo :=
  t.data.filter fun c => c.socket == socket

/-- State-passing embedding of the `&self` method call `cores()`: the result
together with the receiver after the call. The body `self.data.len()` performs
no mutation, so the receiver is returned unchanged. -/
def MachineTopology.coresCall (t : MachineTopology) : Nat × MachineTopology :=
  (t.data.length, t)

/-- State-passing embedding of the `&self` method call `sockets()`: the body
builds, sorts and dedups a local vector and never writes to `self`. -/
def MachineTopology.socketsCall (t : MachineTopology) : List Nat × MachineTopology :=
  (t.sockets, t)

/-- State-passing embedding of the `&self` method call `cpus_on_socket(s)`:
the body filters `self.data` into a fresh vector and never writes to `self`. -/
def MachineTopology.cpusOnSocketCall (t : MachineTopology) (socket : Nat) :
    List CpuInfo × MachineTopology :=
  (t.cpus_on_socket socket, t)

/-! ### A simulated single-socket machine

4 physical cores, 8 processing units (2 hardware threads per core), one L1
cache per core (shared by its 2 threads), one L2 cache per pair of cores, one
L3 cache shared across the socket, and a single NUMA node. -/

/-- A cache object of the given classification, declared depth and index. -/
def demoCache (ty : ObjectType) (depth idx : Nat) : TopoObject :=
  { objectType := ty, cacheAttributes := some depth, logicalIndex := idx,
    osIndex := idx, totalMemory := 0 }

/-- A physical-core object with the given logical index. -/
def demoCore (idx : Nat) : TopoObject :=
  { objectType := ObjectType.Core, cacheAttributes := none, logicalIndex := idx,
    osIndex := idx, totalMemory := 0 }

/-- The single NUMA node: OS index 0, 4 GiB of attached memory. -/
def demoNode : TopoObject :=
  { objectType := ObjectType.NUMANode, cacheAttributes := none, logicalIndex := 0,
    osIndex := 0, totalMemory := 4294967296 }

/-- The machine root object. -/
def demoRoot : TopoObject :=
  { objectType := ObjectType.Machine, cacheAttributes := none, logicalIndex := 0,
    osIndex := 0, totalMemory := 4294967296 }

/-- Processing unit `i` (0 ≤ i < 8): thread `i % 2` of core `i / 2`, with L1
cache `i / 2`, L2 cache `i / 4`, the socket-wide L3 cache 0 and the single
NUMA node above it. -/
def demoPU (i : Nat) : PUObject :=
  { osIndex := i,
    ancestors := [demoCore (i / 2), demoCache ObjectType.L1Cache 1 (i / 2),
                  demoCache ObjectType.L2Cache 2 (i / 4),
                  demoCache ObjectType.L3Cache 3 0, demoNode, demoRoot] }

/-- The provider enumeration for the simulated machine: 8 processing units in
OS order. -/
def demoProvider : Topology :=
  { pus := some [demoPU 0, demoPU 1, demoPU 2, demoPU 3,
                 demoPU 4, demoPU 5, demoPU 6, demoPU 7] }

/-- The record the discovery pass produces for processing unit `i`. -/
def demoCpuInfo (i : Nat) : CpuInfo :=
  { node := some { node := 0, memory := 4294967296 }, socket := 0,
    core := i / 2, cpu := i, l1 := i / 2, l2 := i / 4, l3 := 0 }

/-- The topology built from the simulated machine. -/
def demoTopology : MachineTopology :=
  { data := [demoCpuInfo 0, demoCpuInfo 1, demoCpuInfo 2, demoCpuInfo 3,
             demoCpuInfo 4, demoCpuInfo 5, demoCpuInfo 6, demoCpuInfo 7] }

/-! ### Lemmas about the ascent loops -/

theorem findCore_suffix : ∀ l : List TopoObject, (findCore l).IsSuffix l := by
  intro l
  induction l with
  | nil => exact List.suffix_rfl
  | cons o rest ih =>
    by_cases h : o.objectType = ObjectType.Core
    · simp [findCore, h]
    · simpa [findCore, h] using ih.trans (List.suffix_cons o rest)

theorem findCore_eq_nil_iff {l : List TopoObject} :
    findCore l = [] ↔ ∀ o ∈ l, o.objectType ≠ ObjectType.Core := by
  induction l with
  | nil => simp [findCore]
  | cons o rest ih =>
    by_cases h : o.objectType = ObjectType.Core
    · simp [findCore, h]
    · simp [findCore, h, ih]

theorem findNUMA_eq_nil_iff {l : List TopoObject} :
    findNUMA l = [] ↔ ∀ o ∈ l, o.objectType ≠ ObjectType.NUMANode := by
  induction l with
  | nil => simp [findNUMA]
  | cons o rest ih =>
    by_cases h : o.objectType = ObjectType.NUMANode
    · simp [findNUMA, h]
    · simp [findNUMA, h, ih]

theorem findNUMA_head_eq {l : List TopoObject} :
    (findNUMA l).head? = l.find? fun o => decide (o.objectType = ObjectType.NUMANode) := by
  induction l with
  | nil => simp [findNUMA]
  | cons o rest ih =>
    by_cases h : o.objectType = ObjectType.NUMANode
    · rw [List.find?_cons_of_pos _ (by simpa using h)]
      simp [findNUMA, h]
    · rw [List.find?_cons_of_neg _ (by simpa using h)]
      simpa [findNUMA, h] using ih

theorem findCache_ok_suffix {ty : ObjectType} {d : Nat} :
    ∀ {l r : List TopoObject}, findCache ty d l = Except.ok r → r.IsSuffix l := by
  intro l
  induction l with
  | nil =>
    intro r h
    simp only [findCache, Except.ok.injEq] at h
    simp [← h]
  | cons o rest ih =>
    intro r h
    by_cases hty : o.objectType = ty
    · cases hattr : o.cacheAttributes with
      | none => simp [findCache, hty, hattr] at h
      | some k =>
        by_cases hk : k < d
        · simp only [findCache, if_pos hty, hattr, if_pos hk] at h
          exact (ih h).trans (List.suffix_cons o rest)
        · simp only [findCache, if_pos hty, hattr, if_neg hk, Except.ok.injEq] at h
          simp [← h]
    · simp only [findCache, if_neg hty] at h
      exact (ih h).trans (List.suffix_cons o rest)

theorem findCache_ok_head {ty : ObjectType} {d : Nat} :
    ∀ {l r : List TopoObject} {o : TopoObject},
      findCache ty d l = Except.ok (o :: r) → qualifiesCache o ty d = true := by
  intro l
  induction l with
  | nil => intro r o h; simp [findCache] at h
  | cons a rest ih =>
    intro r o h
    by_cases hty : a.objectType = ty
    · cases hattr : a.cacheAttributes with
      | none => simp [findCache, hty, hattr] at h
      | some k =>
        by_cases hk : k < d
        · simp only [findCache, if_pos hty, hattr, if_pos hk] at h
          exact ih h
        · simp only [findCache, if_pos hty, hattr, if_neg hk, Except.ok.injEq,
            List.cons.injEq] at h
          obtain ⟨rfl, -⟩ := h
          simp [qualifiesCache, hty, hattr, Nat.le_of_not_lt hk]
    · simp only [findCache, if_neg hty] at h
      exact ih h

theorem findCache_ok_of_attrs (ty : ObjectType) (d : Nat) :
    ∀ l : List TopoObject,
      (∀ o ∈ l, o.objectType = ty → o.cacheAttributes.isSome = true) →
      ∃ r, findCache ty d l = Except.ok r := by
  intro l
  induction l with
  | nil => intro _; exact ⟨[], rfl⟩
  | cons o rest ih =>
    intro hattr
    by_cases hty : o.objectType = ty
    · cases hattrs : o.cacheAttributes with
      | none =>
        have := hattr o (List.mem_cons_self o rest) hty
        rw [hattrs] at this
        simp at this
      | some k =>
        by_cases hk : k < d
        · obtain ⟨r, hr⟩ := ih fun a ha hb => hattr a (List.mem_cons_of_mem o ha) hb
          exact ⟨r, by simp [findCache, hty, hattrs, hk, hr]⟩
        · exact ⟨o :: rest, by simp [findCache, hty, hattrs, hk]⟩
    · obtain ⟨r, hr⟩ := ih fun a ha hb => hattr a (List.mem_cons_of_mem o ha) hb
      exact ⟨r, by simp [findCache, hty, hr]⟩

theorem findCache_all_unqualified {ty : ObjectType} {d : Nat} :
    ∀ l : List TopoObject,
      (∀ o ∈ l, qualifiesCache o ty d = false) →
      findCache ty d l = Except.ok [] ∨ findCache ty d l = Except.error Panic.unwrapNone := by
  intro l
  induction l with
  | nil => intro _; exact Or.inl rfl
  | cons o rest ih =>
    intro hq
    have ho := hq o (List.mem_cons_self o rest)
    have hrest := ih fun a ha => hq a (List.mem_cons_of_mem o ha)
    by_cases hty : o.objectType = ty
    · cases hattrs : o.cacheAttributes with
      | none => exact Or.inr (by simp [findCache, hty, hattrs])
      | some k =>
        have hk : k < d := by
          by_contra hk
          rw [qualifiesCache, hattrs] at ho
          simp [hty, Nat.le_of_not_lt hk] at ho
        rcases hrest with h | h
        · exact Or.inl (by simp [findCache, hty, hattrs, hk, h])
        · exact Or.inr (by simp [findCache, hty, hattrs, hk, h])
    · rcases hrest with h | h
      · exact Or.inl (by simp [findCache, hty, h])
      · exact Or.inr (by simp [findCache, hty, h])

/-! ### Shape of `processPU` and `processAll` -/

theorem processPU_ok_iff (cpu : PUObject) (info : CpuInfo) :
    processPU cpu = Except.ok info ↔
    ∃ (core l1 l2 sck : TopoObject) (r1 r2 r3 r4 : List TopoObject),
      findCore cpu.ancestors = core :: r1 ∧
      findCache ObjectType.L1Cache 1 (core :: r1) = Except.ok (l1 :: r2) ∧
      findCache ObjectType.L2Cache 2 (l1 :: r2) = Except.ok (l2 :: r3) ∧
      findCache ObjectType.L3Cache 3 (l2 :: r3) = Except.ok (sck :: r4) ∧
      info = { node := (findNUMA (sck :: r4)).head?.map fun n =>
                 ({ node := n.osIndex, memory := n.totalMemory } : NodeInfo),
               socket := sck.logicalIndex, core := core.logicalIndex,
               cpu := cpu.osIndex, l1 := l1.logicalIndex, l2 := l2.logicalIndex,
               l3 := sck.logicalIndex } := by
  constructor
  · intro h
    cases hc : findCore cpu.ancestors with
    | nil => simp [processPU, hc] at h
    | cons core r1 =>
      cases h2 : findCache ObjectType.L1Cache 1 (core :: r1) with
      | error e => simp [processPU, hc, h2] at h
      | ok p2 =>
        cases p2 with
        | nil => simp [processPU, hc, h2] at h
        | cons l1 r2 =>
          cases h3 : findCache ObjectType.L2Cache 2 (l1 :: r2) with
          | error e => simp [processPU, hc, h2, h3] at h
          | ok p3 =>
            cases p3 with
            | nil => simp [processPU, hc, h2, h3] at h
            | cons l2 r3 =>
              cases h4 : findCache ObjectType.L3Cache 3 (l2 :: r3) with
              | error e => simp [processPU, hc, h2, h3, h4] at h
              | ok p4 =>
                cases p4 with
                | nil => simp [processPU, hc, h2, h3, h4] at h
                | cons sck r4 =>
                  refine ⟨core, l1, l2, sck, r1, r2, r3, r4, rfl, h2, h3, h4, ?_⟩
                  simp only [processPU, hc, h2, h3, h4, Except.ok.injEq] at h
                  exact h.symm
  · rintro ⟨core, l1, l2, sck, r1, r2, r3, r4, hc, h2, h3, h4, rfl⟩
    simp [processPU, hc, h2, h3, h4]

theorem processAll_length :
    ∀ {l : List PUObject} {r : List CpuInfo},
      processAll l = Except.ok r → r.length = l.length := by
  intro l
  induction l with
  | nil =>
    intro r h
    simp only [processAll, Except.ok.injEq] at h
    rw [← h]
    rfl
  | cons c rest ih =>
    intro r h
    cases hc : processPU c with
    | error e => simp [processAll, hc] at h
    | ok info =>
      cases hr : processAll rest with
      | error e => simp [processAll, hc, hr] at h
      | ok infos =>
        simp only [processAll, hc, hr, Except.ok.injEq] at h
        rw [← h]
        simp [ih hr]

theorem processAll_mem :
    ∀ {l : List PUObject} {r : List CpuInfo}, processAll l = Except.ok r →
      ∀ info ∈ r, ∃ cpu ∈ l, processPU cpu = Except.ok info := by
  intro l
  induction l with
  | nil =>
    intro r h info hi
    simp only [processAll, Except.ok.injEq] at h
    rw [← h] at hi
    simp at hi
  | cons c rest ih =>
    intro r h info hi
    cases hc : processPU c with
    | error e => simp [processAll, hc] at h
    | ok i0 =>
      cases hr : processAll rest with
      | error e => simp [processAll, hc, hr] at h
      | ok infos =>
        simp only [processAll, hc, hr, Except.ok.injEq] at h
        rw [← h] at hi
        rcases List.mem_cons.mp hi with h1 | h1
        · exact ⟨c, List.mem_cons_self c rest, by rw [hc, h1]⟩
        · obtain ⟨cpu, hcl, hok⟩ := ih hr info h1
          exact ⟨cpu, List.mem_cons_of_mem c hcl, hok⟩

theorem processAll_not_ok :
    ∀ {l : List PUObject} {cpu : PUObject}, cpu ∈ l →
      (∀ info, processPU cpu ≠ Except.ok info) →
      ∀ r, processAll l ≠ Except.ok r := by
  intro l
  induction l with
  | nil => intro cpu h; simp at h
  | cons c rest ih =>
    intro cpu hm hno r h
    cases hc : processPU c with
    | error e => simp [processAll, hc] at h
    | ok i0 =>
      rcases List.mem_cons.mp hm with h1 | h1
      · rw [← h1] at hc
        exact hno i0 hc
      · cases hr : processAll rest with
        | error e => simp [processAll, hc, hr] at h
        | ok infos => exact ih h1 hno infos hr

theorem new_ok_shape {init : Option Topology} {t : MachineTopology}
    (h : MachineTopology.new init = Except.ok t) :
    ∃ cpus, init = some { pus := some cpus } ∧ processAll cpus = Except.ok t.data := by
  cases init with
  | none => simp [MachineTopology.new] at h
  | some topo =>
    obtain ⟨pus⟩ := topo
    cases pus with
    | none => simp [MachineTopology.new] at h
    | some cpus =>
      cases hp : processAll cpus with
      | error e => simp [MachineTopology.new, hp] at h
      | ok d =>
        simp only [MachineTopology.new, hp, Except.ok.injEq] at h
        subst h
        exact ⟨cpus, rfl, hp⟩

/-! ### Lemmas about `sort` + `dedup` (the body of `sockets`) -/

theorem mem_dedupFrom (x : Nat) :
    ∀ (l : List Nat) (a : Nat), (x ∈ dedupFrom a l ∨ x = a) ↔ (x ∈ l ∨ x = a) := by
  intro l
  induction l with
  | nil => intro a; simp [dedupFrom]
  | cons b rest ih =>
    intro a
    by_cases hab : a = b
    · subst hab
      have h1 := ih a
      simp only [dedupFrom, if_pos rfl, List.mem_cons]
      tauto
    · have h1 := ih b
      simp only [dedupFrom, if_neg hab, List.mem_cons]
      tauto

theorem mem_dedupConsec {x : Nat} {l : List Nat} : x ∈ dedupConsec l ↔ x ∈ l := by
  cases l with
  | nil => simp [dedupConsec]
  | cons a rest =>
    have h1 := mem_dedupFrom x rest a
    simp only [dedupConsec, List.mem_cons]
    tauto

theorem chain_dedupFrom :
    ∀ (l : List Nat) (a : Nat), List.Chain (· ≤ ·) a l →
      List.Chain (· < ·) a (dedupFrom a l) := by
  intro l
  induction l with
  | nil => intro a _; exact List.Chain.nil
  | cons b rest ih =>
    intro a h
    cases h with
    | cons hab hrest =>
      by_cases hne : a = b
      · subst hne
        simpa [dedupFrom] using ih a hrest
      · simpa [dedupFrom, hne] using
          List.Chain.cons (lt_of_le_of_ne hab hne) (ih b hrest)

theorem sorted_lt_dedupConsec {l : List Nat} (h : l.Sorted (· ≤ ·)) :
    (dedupConsec l).Sorted (· < ·) := by
  cases l with
  | nil => simp [dedupConsec]
  | cons a rest =>
    have hch : List.Chain (· ≤ ·) a rest := List.Pairwise.chain' h
    have h2 : List.Chain' (· < ·) (a :: dedupFrom a rest) := chain_dedupFrom rest a hch
    have h3 : List.Pairwise (· < ·) (a :: dedupFrom a rest) :=
      List.chain'_iff_pairwise.mp h2
    exact h3

theorem sockets_sorted_lt (t : MachineTopology) : t.sockets.Sorted (· < ·) :=
  sorted_lt_dedupConsec
    (List.sorted_insertionSort (fun a b => a ≤ b) (t.data.map fun c => c.socket))

theorem mem_sockets {t : MachineTopology} {s : Nat} :
    s ∈ t.sockets ↔ ∃ r ∈ t.data, r.socket = s := by
  unfold MachineTopology.sockets
  rw [mem_dedupConsec, List.mem_insertionSort]
  exact List.mem_map

/-! ### Counting lemmas for `cpus_on_socket` -/

theorem count_cpus_on_socket (t : MachineTopology) (s : Nat) (r : CpuInfo) :
    (t.cpus_on_socket s).count r = if r.socket = s then t.data.count r else 0 := by
  unfold MachineTopology.cpus_on_socket
  by_cases h : r.socket = s
  · rw [if_pos h]
    exact List.count_filter (by simpa using h)
  · rw [if_neg h]
    refine List.count_eq_zero.mpr fun hmem => ?_
    exact h (by simpa using (List.mem_filter.mp hmem).2)

theorem sum_ite_mem (x c : Nat) :
    ∀ ss : List Nat, ss.Nodup →
      (ss.map fun s => if x = s then c else 0).sum = if x ∈ ss then c else 0 := by
  intro ss
  induction ss with
  | nil => intro _; simp
  | cons s rest ih =>
    intro hnd
    rw [List.map_cons, List.sum_cons, ih (List.nodup_cons.mp hnd).2]
    by_cases hxs : x = s
    · subst hxs
      rw [if_pos rfl, if_pos (List.mem_cons_self _ _),
          if_neg (fun hmem => (List.nodup_cons.mp hnd).1 hmem)]
      exact Nat.add_zero c
    · rw [if_neg hxs]
      simp [List.mem_cons, hxs]

theorem cpus_partition (t : MachineTopology) :
    ((t.sockets.map fun s => t.cpus_on_socket s).flatten).Perm t.data := by
  rw [List.perm_iff_count]
  intro r
  rw [List.count_flatten, List.map_map]
  have hmap : (t.sockets.map (List.count r ∘ fun s => t.cpus_on_socket s)) =
      t.sockets.map fun s => if r.socket = s then t.data.count r else 0 :=
    List.map_congr_left fun s _ => count_cpus_on_socket t s r
  rw [hmap, sum_ite_mem r.socket (t.data.count r) t.sockets
        (List.Sorted.nodup (sockets_sorted_lt t))]
  by_cases hr : r.socket ∈ t.sockets
  · rw [if_pos hr]
  · rw [if_neg hr]
    exact (List.count_eq_zero.mpr fun hmem => hr (mem_sockets.mpr ⟨r, hmem, rfl⟩)).symm

/-! ### Claim theorems -/

/-- C1: for every `MachineTopology` and socket value `s`, `cpus_on_socket s`
returns exactly those records whose `socket` field equals `s`, in table order
(it is a sublist of the table with the exact multiplicities); it is empty when
`s` occurs in no record; and the results over all `s` in `sockets()` partition
the record table: their concatenation is a permutation of the full table, so
every record appears exactly once. -/
theorem cpus_on_socket_exact_and_partition (t : MachineTopology) (s : Nat) :
    (∀ r ∈ t.cpus_on_socket s, r.socket = s) ∧
    (t.cpus_on_socket s).Sublist t.data ∧
    (∀ r : CpuInfo,
      (t.cpus_on_socket s).count r = if r.socket = s then t.data.count r else 0) ∧
    ((∀ r ∈ t.data, r.socket ≠ s) → t.cpus_on_socket s = []) ∧
    ((t.sockets.map fun v => t.cpus_on_socket v).flatten).Perm t.data := by
  refine ⟨?_, List.filter_sublist _, count_cpus_on_socket t s, ?_, cpus_partition t⟩
  · intro r hr
    simpa using (List.mem_filter.mp hr).2
  · intro h
    refine List.filter_eq_nil_iff.mpr fun r hr => ?_
    simpa using h r hr

/-- C1 witness: on the simulated machine, socket value 5 occurs in no record,
and `cpus_on_socket 5` is accordingly empty. -/
theorem cpus_on_socket_exact_and_partition_witness :
    demoTopology.cpus_on_socket 5 = [] :=
  (cpus_on_socket_exact_and_partition demoTopology 5).2.2.2.1 (by decide)

/-- C2: for every `MachineTopology`, `sockets()` is strictly ascending with no
duplicates, every value in it is the `socket` field of some record, and every
record's `socket` value appears in it. -/
theorem sockets_sorted_nodup_complete (t : MachineTopology) :
    t.sockets.Sorted (· < ·) ∧ t.sockets.Nodup ∧
    (∀ s ∈ t.sockets, ∃ r ∈ t.data, r.socket = s) ∧
    (∀ r ∈ t.data, r.socket ∈ t.sockets) :=
  ⟨sockets_sorted_lt t, List.Sorted.nodup (sockets_sorted_lt t),
    fun _ hs => mem_sockets.mp hs,
    fun r hr => mem_sockets.mpr ⟨r, hr, rfl⟩⟩

/-- C2 witness: on the simulated machine, socket 0 is listed and is indeed the
`socket` field of some record. -/
theorem sockets_sorted_nodup_complete_witness :
    ∃ r ∈ demoTopology.data, r.socket = 0 :=
  (sockets_sorted_nodup_complete demoTopology).2.2.1 0 (by decide)

/-- C3: for every processing unit whose record is produced, the `node` field
carries the OS-level index and total memory of the nearest NUMA-node ancestor
found by continuing the ascent from the L3/socket ancestor (the first
`NUMANode`-classified object of the remaining chain), and `node` is absent
exactly when that continued chain contains no NUMA-node object. The stage
hypotheses name the chain suffixes at which the four preceding ascents
stopped. -/
theorem node_field_nearest_numa_ancestor
    {cpu : PUObject} {info : CpuInfo} {core l1 l2 sck : TopoObject}
    {r1 r2 r3 r4 : List TopoObject}
    (h1 : findCore cpu.ancestors = core :: r1)
    (h2 : findCache ObjectType.L1Cache 1 (core :: r1) = Except.ok (l1 :: r2))
    (h3 : findCache ObjectType.L2Cache 2 (l1 :: r2) = Except.ok (l2 :: r3))
    (h4 : findCache ObjectType.L3Cache 3 (l2 :: r3) = Except.ok (sck :: r4))
    (h : processPU cpu = Except.ok info) :
    info.node = ((sck :: r4).find? fun o => decide (o.objectType = ObjectType.NUMANode)).map
        (fun n => ({ node := n.osIndex, memory := n.totalMemory } : NodeInfo)) ∧
    (info.node = none ↔ ∀ o ∈ sck :: r4, o.objectType ≠ ObjectType.NUMANode) := by
  obtain ⟨c', l1', l2', s', r1', r2', r3', r4', g1, g2, g3, g4, rfl⟩ :=
    (processPU_ok_iff cpu info).mp h
  rw [h1] at g1
  injection g1 with e1 e2
  subst e1
  subst e2
  rw [h2] at g2
  injection g2 with g2'
  injection g2' with e3 e4
  subst e3
  subst e4
  rw [h3] at g3
  injection g3 with g3'
  injection g3' with e5 e6
  subst e5
  subst e6
  rw [h4] at g4
  injection g4 with g4'
  injection g4' with e7 e8
  subst e7
  subst e8
  constructor
  · simp only [findNUMA_head_eq]
  · dsimp only
    rw [Option.map_eq_none', List.head?_eq_none_iff, findNUMA_eq_nil_iff]

/-- C3 witness: for processing unit 0 of the simulated machine, the continued
ascent from the L3 ancestor finds the NUMA node, and the record's `node` field
carries its OS index and memory. -/
theorem node_field_nearest_numa_ancestor_witness :
    (demoCpuInfo 0).node =
      ((demoCache ObjectType.L3Cache 3 0 :: [demoNode, demoRoot]).find? fun o =>
        decide (o.objectType = ObjectType.NUMANode)).map
        (fun n => ({ node := n.osIndex, memory := n.totalMemory } : NodeInfo)) ∧
    ((demoCpuInfo 0).node = none ↔
      ∀ o ∈ demoCache ObjectType.L3Cache 3 0 :: [demoNode, demoRoot],
        o.objectType ≠ ObjectType.NUMANode) :=
  @node_field_nearest_numa_ancestor (demoPU 0) (demoCpuInfo 0) (demoCore 0)
    (demoCache ObjectType.L1Cache 1 0) (demoCache ObjectType.L2Cache 2 0)
    (demoCache ObjectType.L3Cache 3 0)
    [demoCache ObjectType.L1Cache 1 0, demoCache ObjectType.L2Cache 2 0,
     demoCache ObjectType.L3Cache 3 0, demoNode, demoRoot]
    [demoCache ObjectType.L2Cache 2 0, demoCache ObjectType.L3Cache 3 0,
     demoNode, demoRoot]
    [demoCache ObjectType.L3Cache 3 0, demoNode, demoRoot]
    [demoNode, demoRoot]
    rfl rfl rfl rfl rfl

/-- C4: for every topology built from a successfully enumerated list of
processing units, `cores()` equals the length of the internal record table,
which equals the number of processing-unit objects the provider reported. -/
theorem cores_counts_processing_units {cpus : List PUObject} {t : MachineTopology}
    (h : MachineTopology.new (some { pus := some cpus }) = Except.ok t) :
    t.cores = t.data.length ∧ t.data.length = cpus.length := by
  cases hp : processAll cpus with
  | error e => simp [MachineTopology.new, hp] at h
  | ok d =>
    simp only [MachineTopology.new, hp, Except.ok.injEq] at h
    subst h
    exact ⟨rfl, processAll_length hp⟩

/-- C4 witness: the simulated machine's 8 processing units yield a table of
length 8 and `cores() == 8`. -/
theorem cores_counts_processing_units_witness :
    demoTopology.cores = demoTopology.data.length ∧
    demoTopology.data.length =
      [demoPU 0, demoPU 1, demoPU 2, demoPU 3, demoPU 4, demoPU 5, demoPU 6,
       demoPU 7].length :=
  @cores_counts_processing_units
    [demoPU 0, demoPU 1, demoPU 2, demoPU 3, demoPU 4, demoPU 5, demoPU 6,
     demoPU 7] demoTopology rfl

/-- C5: in every constructed topology, every record's `l3` field equals its
`socket` field, both being the logical index of the L3-cache ancestor. -/
theorem l3_eq_socket_invariant {init : Option Topology} {t : MachineTopology}
    (h : MachineTopology.new init = Except.ok t) :
    ∀ r ∈ t.data, r.l3 = r.socket := by
  obtain ⟨cpus, -, hall⟩ := new_ok_shape h
  intro r hr
  obtain ⟨cpu, -, hok⟩ := processAll_mem hall r hr
  obtain ⟨core, l1, l2, sck, r1, r2, r3, r4, -, -, -, -, rfl⟩ :=
    (processPU_ok_iff cpu r).mp hok
  rfl

/-- C5 witness: the first record of the simulated machine's topology has
`l3 == socket`. -/
theorem l3_eq_socket_invariant_witness : (demoCpuInfo 0).l3 = (demoCpuInfo 0).socket :=
  @l3_eq_socket_invariant (some demoProvider) demoTopology rfl
    (demoCpuInfo 0) (by decide)

/-- C7: for a provider modeling a single-socket machine with 4 physical cores
and 8 processing units (2 threads per core, shared L1 within each core, shared
L2 across pairs of cores, shared L3 across the socket, one NUMA node), the
constructed topology satisfies `cores() == 8`, `sockets() == [0]`, and
`cpus_on_socket(0)` returns all 8 records, each with the same `l3`/`socket`
value and `node == Some(NodeInfo { node: 0, memory: <reported bytes> })`. -/
theorem single_socket_scenario :
    MachineTopology.new (some demoProvider) = Except.ok demoTopology ∧
    demoTopology.cores = 8 ∧
    demoTopology.sockets = [0] ∧
    demoTopology.cpus_on_socket 0 = demoTopology.data ∧
    demoTopology.data.length = 8 ∧
    ∀ r ∈ demoTopology.data,
      r.l3 = r.socket ∧ r.socket = 0 ∧
      r.node = some { node := 0, memory := 4294967296 } :=
  ⟨rfl, rfl, by decide, by decide, rfl, by decide⟩

/-- C8: the query methods are pure: in the state-passing embedding of the
`&self` method calls, each call returns the receiver unchanged (no query
mutates the internal table), repeated calls with the same arguments return
identical results, and the returned values are exactly those of the pure
query functions. -/
theorem queries_pure_idempotent (t : MachineTopology) (s : Nat) :
    (t.coresCall.snd = t ∧ t.socketsCall.snd = t ∧ (t.cpusOnSocketCall s).snd = t) ∧
    (t.coresCall.snd.coresCall.fst = t.coresCall.fst ∧
     t.socketsCall.snd.socketsCall.fst = t.socketsCall.fst ∧
     ((t.cpusOnSocketCall s).snd.cpusOnSocketCall s).fst = (t.cpusOnSocketCall s).fst) ∧
    (t.coresCall.fst = t.cores ∧ t.socketsCall.fst = t.sockets ∧
     (t.cpusOnSocketCall s).fst = t.cpus_on_socket s) :=
  ⟨⟨rfl, rfl, rfl⟩, ⟨rfl, rfl, rfl⟩, ⟨rfl, rfl, rfl⟩⟩

/-- C9: if the provider initializes successfully and returns an empty
enumeration of processing units, `new()` succeeds and yields a topology where
`cores() == 0`, `sockets()` is empty, and `cpus_on_socket(s)` is empty for
every socket value `s`. -/
theorem empty_enumeration_succeeds :
    MachineTopology.new (some { pus := some [] }) = Except.ok { data := [] } ∧
    MachineTopology.cores { data := [] } = 0 ∧
    MachineTopology.sockets { data := [] } = [] ∧
    ∀ s : Nat, MachineTopology.cpus_on_socket { data := [] } s = [] :=
  ⟨rfl, rfl, rfl, fun _ => rfl⟩

/-- C6: `new()` fails fatally when the provider cannot initialize, when it
cannot enumerate processing units, or when some enumerated processing unit
makes its per-unit pass panic; a processing unit panics the pass when its
chain has no `Core`-classified ancestor, or no ancestor satisfying the L1
(depth ≥ 1), L2 (depth ≥ 2) or L3 (depth ≥ 3) cache stop condition; and once
the four guarded ascents succeed the pass always succeeds, so a missing
NUMA-node ancestor alone never causes failure. -/
theorem new_fatal_error_conditions :
    (MachineTopology.new none = Except.error Panic.cantRetrieveTopology) ∧
    (∀ topo : Topology, topo.pus = none →
      MachineTopology.new (some topo) = Except.error Panic.cantFindCPUs) ∧
    (∀ (cpus : List PUObject) (cpu : PUObject), cpu ∈ cpus →
      (∀ info, processPU cpu ≠ Except.ok info) →
      ∀ t, MachineTopology.new (some { pus := some cpus }) ≠ Except.ok t) ∧
    (∀ cpu : PUObject, (∀ o ∈ cpu.ancestors, o.objectType ≠ ObjectType.Core) →
      processPU cpu = Except.error Panic.puHasNoCore) ∧
    (∀ cpu : PUObject,
      (∀ o ∈ cpu.ancestors, qualifiesCache o ObjectType.L1Cache 1 = false) →
      ∀ info, processPU cpu ≠ Except.ok info) ∧
    (∀ cpu : PUObject,
      (∀ o ∈ cpu.ancestors, qualifiesCache o ObjectType.L2Cache 2 = false) →
      ∀ info, processPU cpu ≠ Except.ok info) ∧
    (∀ cpu : PUObject,
      (∀ o ∈ cpu.ancestors, qualifiesCache o ObjectType.L3Cache 3 = false) →
      ∀ info, processPU cpu ≠ Except.ok info) ∧
    (∀ (cpu : PUObject) (core l1 l2 sck : TopoObject) (r1 r2 r3 r4 : List TopoObject),
      findCore cpu.ancestors = core :: r1 →
      findCache ObjectType.L1Cache 1 (core :: r1) = Except.ok (l1 :: r2) →
      findCache ObjectType.L2Cache 2 (l1 :: r2) = Except.ok (l2 :: r3) →
      findCache ObjectType.L3Cache 3 (l2 :: r3) = Except.ok (sck :: r4) →
      ∃ info, processPU cpu = Except.ok info) := by
  refine ⟨rfl, ?_, ?_, ?_, ?_, ?_, ?_, ?_⟩
  · intro topo hp
    obtain ⟨pus⟩ := topo
    cases hp
    rfl
  · intro cpus cpu hm hno t h
    cases hp : processAll cpus with
    | error e => simp [MachineTopology.new, hp] at h
    | ok d => exact processAll_not_ok hm hno d hp
  · intro cpu hno
    have hnil : findCore cpu.ancestors = [] := findCore_eq_nil_iff.mpr hno
    simp [processPU, hnil]
  · intro cpu hq info h
    obtain ⟨core, l1, l2, sck, r1, r2, r3, r4, g1, g2, g3, g4, -⟩ :=
      (processPU_ok_iff cpu info).mp h
    have hsfx1 : (core :: r1).IsSuffix cpu.ancestors := by
      rw [← g1]; exact findCore_suffix _
    have hmem : l1 ∈ cpu.ancestors :=
      hsfx1.subset ((findCache_ok_suffix g2).subset (List.mem_cons_self l1 r2))
    have hfalse := hq l1 hmem
    rw [findCache_ok_head g2] at hfalse
    simp at hfalse
  · intro cpu hq info h
    obtain ⟨core, l1, l2, sck, r1, r2, r3, r4, g1, g2, g3, g4, -⟩ :=
      (processPU_ok_iff cpu info).mp h
    have hsfx1 : (core :: r1).IsSuffix cpu.ancestors := by
      rw [← g1]; exact findCore_suffix _
    have hsfx2 : (l1 :: r2).IsSuffix cpu.ancestors :=
      (findCache_ok_suffix g2).trans hsfx1
    have hmem : l2 ∈ cpu.ancestors :=
      hsfx2.subset ((findCache_ok_suffix g3).subset (List.mem_cons_self l2 r3))
    have hfalse := hq l2 hmem
    rw [findCache_ok_head g3] at hfalse
    simp at hfalse
  · intro cpu hq info h
    obtain ⟨core, l1, l2, sck, r1, r2, r3, r4, g1, g2, g3, g4, -⟩ :=
      (processPU_ok_iff cpu info).mp h
    have hsfx1 : (core :: r1).IsSuffix cpu.ancestors := by
      rw [← g1]; exact findCore_suffix _
    have hsfx2 : (l1 :: r2).IsSuffix cpu.ancestors :=
      (findCache_ok_suffix g2).trans hsfx1
    have hsfx3 : (l2 :: r3).IsSuffix cpu.ancestors :=
      (findCache_ok_suffix g3).trans hsfx2
    have hmem : sck ∈ cpu.ancestors :=
      hsfx3.subset ((findCache_ok_suffix g4).subset (List.mem_cons_self sck r4))
    have hfalse := hq sck hmem
    rw [findCache_ok_head g4] at hfalse
    simp at hfalse
  · intro cpu core l1 l2 sck r1 r2 r3 r4 g1 g2 g3 g4
    exact ⟨_, (processPU_ok_iff cpu _).mpr ⟨core, l1, l2, sck, r1, r2, r3, r4,
      g1, g2, g3, g4, rfl⟩⟩

/-- C6 witness: concrete instances of the fatal and tolerated conditions — a
failed provider, a failed enumeration, a processing unit with no ancestors at
all, one whose chain stops at a bare core (no L1 cache), and a fully equipped
processing unit of the simulated machine that the pass accepts. -/
theorem new_fatal_error_conditions_witness :
    MachineTopology.new none = Except.error Panic.cantRetrieveTopology ∧
    MachineTopology.new (some { pus := none }) = Except.error Panic.cantFindCPUs ∧
    processPU { osIndex := 0, ancestors := [] } = Except.error Panic.puHasNoCore ∧
    (∀ info, processPU { osIndex := 0, ancestors := [demoCore 0] } ≠ Except.ok info) ∧
    (∃ info, processPU (demoPU 0) = Except.ok info) :=
  ⟨new_fatal_error_conditions.1,
   new_fatal_error_conditions.2.1 _ rfl,
   new_fatal_error_conditions.2.2.2.1 _ (by decide),
   new_fatal_error_conditions.2.2.2.2.1 _ (by decide),
   new_fatal_error_conditions.2.2.2.2.2.2.2 (demoPU 0) (demoCore 0)
     (demoCache ObjectType.L1Cache 1 0) (demoCache ObjectType.L2Cache 2 0)
     (demoCache ObjectType.L3Cache 3 0)
     [demoCache ObjectType.L1Cache 1 0, demoCache ObjectType.L2Cache 2 0,
      demoCache ObjectType.L3Cache 3 0, demoNode, demoRoot]
     [demoCache ObjectType.L2Cache 2 0, demoCache ObjectType.L3Cache 3 0,
      demoNode, demoRoot]
     [demoCache ObjectType.L3Cache 3 0, demoNode, demoRoot]
     [demoNode, demoRoot]
     rfl rfl rfl rfl⟩

/-- C10: the `unwrap`s in the ascent loops are guarded. `parent.unwrap()` after
`parent.is_some()` is structural in this embedding (the loops match on the
chain before touching its head), and `cache_attributes().unwrap()` is reached
only on objects classified as the cache type the loop is testing — so whenever
every object of the tested classification carries cache attributes, a cache
loop returns without the unwrap panic, and under that precondition for all
three cache types `processPU` never returns the unwrap panic. -/
theorem ascent_unwraps_guarded :
    (∀ (ty : ObjectType) (d : Nat) (chain : List TopoObject),
      (∀ o ∈ chain, o.objectType = ty → o.cacheAttributes.isSome = true) →
      ∃ r, findCache ty d chain = Except.ok r) ∧
    (∀ cpu : PUObject,
      (∀ o ∈ cpu.ancestors,
        o.objectType = ObjectType.L1Cache ∨ o.objectType = ObjectType.L2Cache ∨
          o.objectType = ObjectType.L3Cache → o.cacheAttributes.isSome = true) →
      processPU cpu ≠ Except.error Panic.unwrapNone) := by
  constructor
  · intro ty d chain h
    exact findCache_ok_of_attrs ty d chain h
  · intro cpu hattr h
    cases hc : findCore cpu.ancestors with
    | nil => simp [processPU, hc] at h
    | cons core r1 =>
      have hsfx1 : (core :: r1).IsSuffix cpu.ancestors := by
        rw [← hc]; exact findCore_suffix _
      obtain ⟨p2, h2⟩ := findCache_ok_of_attrs ObjectType.L1Cache 1
        (core :: r1) (fun o ho hty => hattr o (hsfx1.subset ho) (Or.inl hty))
      cases p2 with
      | nil => simp [processPU, hc, h2] at h
      | cons l1 r2 =>
        have hsfx2 : (l1 :: r2).IsSuffix cpu.ancestors :=
          (findCache_ok_suffix h2).trans hsfx1
        obtain ⟨p3, h3⟩ := findCache_ok_of_attrs ObjectType.L2Cache 2
          (l1 :: r2) (fun o ho hty => hattr o (hsfx2.subset ho) (Or.inr (Or.inl hty)))
        cases p3 with
        | nil => simp [processPU, hc, h2, h3] at h
        | cons l2 r3 =>
          have hsfx3 : (l2 :: r3).IsSuffix cpu.ancestors :=
            (findCache_ok_suffix h3).trans hsfx2
          obtain ⟨p4, h4⟩ := findCache_ok_of_attrs ObjectType.L3Cache 3
            (l2 :: r3) (fun o ho hty => hattr o (hsfx3.subset ho) (Or.inr (Or.inr hty)))
          cases p4 with
          | nil => simp [processPU, hc, h2, h3, h4] at h
          | cons sck r4 => simp [processPU, hc, h2, h3, h4] at h

/-- C10 witness: on processing unit 0 of the simulated machine, whose cache
objects all carry attributes, the L1 loop returns without panicking and the
per-unit pass never hits the unwrap panic. -/
theorem ascent_unwraps_guarded_witness :
    (∃ r, findCache ObjectType.L1Cache 1 (demoPU 0).ancestors = Except.ok r) ∧
    processPU (demoPU 0) ≠ Except.error Panic.unwrapNone :=
  ⟨ascent_unwraps_guarded.1 ObjectType.L1Cache 1 (demoPU 0).ancestors (by decide),
   ascent_unwraps_guarded.2 (demoPU 0) (by decide)⟩

end Nrfs
